import Mathlib


/-!
Verification of the IMAP-backed provider of lantianz/lantz-tmail.

The development shallowly embeds the session codec (`src/utils/crypto.ts`),
the token handling, recipient filtering, MIME-structure traversal and error
classification of `src/providers/imap.ts`.

Modelling conventions:
* JavaScript strings that travel through `Buffer`/base64 are modelled at the
  byte level as `List Nat` (each entry one octet).  `JSON.stringify` leaves
  every code unit except `"`,`\` and control characters untouched, and UTF-8
  encoding is the identity on the byte view, so the byte-level composition is
  faithful to `Buffer.from(JSON.stringify(session)).toString('base64')`.
* Randomness (`crypto.randomBytes`) and the clock (`Date.now()`) become
  explicit parameters.
* `JSON.parse` is modelled by a parser for the exact object shape that
  `JSON.stringify` produces for an `ImapSession`; the round-trip claims only
  exercise `JSON.parse` on that image.
* Node's AES-256-GCM and SHA-256 are external library code; they are modelled
  by executable functions exposing the same interface (a keystream added by
  xor and a 16-byte tag that is a function of key, IV and ciphertext).  The
  theorems below use only interface facts that hold of the real cipher:
  decryption xors the identical keystream and the tag is recomputed from
  (key, IV, ciphertext) and compared.
-/


/-- Byte strings: each entry is one octet value. -/

abbrev Bytes := List Nat

/-- All entries of a byte string are genuine octets. -/

def ValidBytes (bs : Bytes) : Prop := ∀ b ∈ bs, b < 256

instance : DecidablePred ValidBytes := fun bs =>
  inferInstanceAs (Decidable (∀ b ∈ bs, b < 256))

/-! ### Base64 (Node `Buffer.toString('base64')` / `Buffer.from(·,'base64')`)

The encoder produces canonical padded base64.  The decoder is Node's decoder
restricted to well-formed padded input; like Node it ignores the dangling
bits of the final symbol before a padding `=`. -/


/-- The 64 base64 alphabet symbols, as ASCII codes (A-Z, a-z, 0-9, +, /). -/

def b64Alphabet : List Nat :=
  [65, 66, 67, 68, 69, 70, 71, 72, 73, 74, 75, 76, 77, 78, 79, 80, 81, 82,
   83, 84, 85, 86, 87, 88, 89, 90,
   97, 98, 99, 100, 101, 102, 103, 104, 105, 106, 107, 108, 109, 110, 111,
   112, 113, 114, 115, 116, 117, 118, 119, 120, 121, 122,
   48, 49, 50, 51, 52, 53, 54, 55, 56, 57, 43, 47]

/-- Symbol for a sextet value. -/

def b64Char (n : Nat) : Nat := b64Alphabet.getD n 0

/-- Sextet value of a symbol, `none` for non-alphabet bytes. -/

def b64Val (c : Nat) : Option Nat := b64Alphabet.findIdx? (· = c)

/-- Base64-encode a byte string (canonical, padded with `=` = 61). -/

def base64Encode : Bytes → List Nat
  | [] => []
  | [b1] => [b64Char (b1 / 4), b64Char (b1 % 4 * 16), 61, 61]
  | [b1, b2] =>
      [b64Char (b1 / 4), b64Char (b1 % 4 * 16 + b2 / 16), b64Char (b2 % 16 * 4), 61]
  | b1 :: b2 :: b3 :: rest =>
      b64Char (b1 / 4) :: b64Char (b1 % 4 * 16 + b2 / 16) ::
      b64Char (b2 % 16 * 4 + b3 / 64) :: b64Char (b3 % 64) :: base64Encode rest

/-- Base64-decode a padded symbol string; dangling bits before `=` are
ignored, as in Node. -/

def base64Decode : List Nat → Option Bytes
  | [] => some []
  | c1 :: c2 :: c3 :: c4 :: rest => do
      let v1 ← b64Val c1
      let v2 ← b64Val c2
      if c3 = 61 ∧ c4 = 61 ∧ rest = [] then
        some [v1 * 4 + v2 / 16]
      else if c4 = 61 ∧ rest = [] then do
        let v3 ← b64Val c3
        some [v1 * 4 + v2 / 16, v2 % 16 * 16 + v3 / 4]
      else do
        let v3 ← b64Val c3
        let v4 ← b64Val c4
        let tail ← base64Decode rest
        some ((v1 * 4 + v2 / 16) :: (v2 % 16 * 16 + v3 / 4) :: (v3 % 4 * 64 + v4) :: tail)
  | _ => none

/-! ### JSON string escaping (`JSON.stringify` on string values, byte view)

`JSON.stringify` escapes `"`, `\` and control characters (U+0000-U+001F,
using the short escapes for \b \t \n \f \r and lowercase `\u00XX` otherwise)
and leaves every other code unit alone. -/


/-- Lowercase hex digit (ASCII code) of a value `< 16`. -/

def hexCh (n : Nat) : Nat := if n < 10 then 48 + n else 87 + n

/-- Bytes `JSON.stringify` emits for one input byte. -/

def escByte (b : Nat) : Bytes :=
  if b = 34 then [92, 34]
  else if b = 92 then [92, 92]
  else if b = 8 then [92, 98]
  else if b = 9 then [92, 116]
  else if b = 10 then [92, 110]
  else if b = 12 then [92, 102]
  else if b = 13 then [92, 114]
  else if b < 32 then [92, 117, 48, 48, hexCh (b / 16), hexCh (b % 16)]
  else [b]

/-- Escape a whole byte string. -/

def jsonEscape : Bytes → Bytes
  | [] => []
  | b :: bs => escByte b ++ jsonEscape bs

/-- A JSON string literal: quote, escaped content, quote. -/

def jsonStringLit (bs : Bytes) : Bytes := 34 :: (jsonEscape bs ++ [34])

/-- Value of one hex digit byte, `none` if not a hex digit. -/

def hexVal (c : Nat) : Option Nat :=
  if 48 ≤ c ∧ c ≤ 57 then some (c - 48)
  else if 97 ≤ c ∧ c ≤ 102 then some (c - 87)
  else if 65 ≤ c ∧ c ≤ 70 then some (c - 55)
  else none

/-- Byte denoted by a single-character JSON escape (`\x` for `x` ≠ `u`). -/

def unescByte (e : Nat) : Option Nat :=
  if e = 34 then some 34
  else if e = 92 then some 92
  else if e = 47 then some 47
  else if e = 98 then some 8
  else if e = 116 then some 9
  else if e = 110 then some 10
  else if e = 102 then some 12
  else if e = 114 then some 13
  else none

/-- `JSON.parse` on a string body (opening quote already consumed): returns
the decoded bytes and the input after the closing quote. -/

def parseStringBody (input : Bytes) : Option (Bytes × Bytes) :=
  match input with
  | [] => none
  | b :: bs =>
    if b = 34 then some ([], bs)
    else if b = 92 then
      match bs with
      | [] => none
      | e :: bs2 =>
        if e = 117 then
          match bs2 with
          | h1 :: h2 :: h3 :: h4 :: bs3 => do
              let d1 ← hexVal h1
              let d2 ← hexVal h2
              let d3 ← hexVal h3
              let d4 ← hexVal h4
              let p ← parseStringBody bs3
              some ((((d1 * 16 + d2) * 16 + d3) * 16 + d4) :: p.1, p.2)
          | _ => none
        else do
          let v ← unescByte e
          let p ← parseStringBody bs2
          some (v :: p.1, p.2)
    else do
      let p ← parseStringBody bs
      some (b :: p.1, p.2)
termination_by input.length
decreasing_by all_goals simp_all [List.length_cons] <;> omega

/-! ### JSON number literals (nonnegative integers) -/


/-- Decimal literal bytes of a natural number, as `JSON.stringify` prints
integral numbers. -/

def natLit (n : Nat) : Bytes :=
  if n = 0 then [48] else (Nat.digits 10 n).reverse.map (· + 48)

/-- Longest prefix of decimal digit bytes (values, most significant first)
and the remaining input. -/

def takeDigits : Bytes → (List Nat × Bytes)
  | [] => ([], [])
  | b :: bs =>
      if 48 ≤ b ∧ b ≤ 57 then
        let p := takeDigits bs
        ((b - 48) :: p.1, p.2)
      else ([], b :: bs)

/-- `JSON.parse` on a number literal: reads the digit prefix. -/

def parseNatLit (bs : Bytes) : Option (Nat × Bytes) :=
  let p := takeDigits bs
  if p.1 = [] then none else some (Nat.ofDigits 10 p.1.reverse, p.2)

/-- The input does not begin with a decimal digit byte. -/

def NotDigitStart : Bytes → Prop
  | [] => True
  | b :: _ => ¬(48 ≤ b ∧ b ≤ 57)

/-! ### Literal matching -/


/-- Consume an exact literal prefix. -/

def dropLit : Bytes → Bytes → Option Bytes
  | [], bs => some bs
  | _ :: _, [] => none
  | l :: ls, b :: bs => if b = l then dropLit ls bs else none

/-- Parse a JSON string literal (leading quote, body, closing quote). -/

def parseJString (bs : Bytes) : Option (Bytes × Bytes) := do
  let bs ← dropLit [34] bs
  parseStringBody bs

/-! ### Session data model (`src/types/email.ts`)

`ImapConfig` and `ImapSession` mirror the TypeScript interfaces; string
fields are modelled at the byte level (see the header).  `generateAccessToken`
stamps a `timestamp` field; tokens predating that feature may lack it, so the
field is optional. -/


/-- `ImapConfig` from `src/types/email.ts`. -/

structure ImapConfig where
  domain : Bytes
  imap_server : Bytes
  imap_port : Option Nat
  imap_user : Bytes
  imap_pass : Bytes
  imap_dir : Option Bytes
deriving DecidableEq, Repr

/-- `ImapSession` from `src/types/email.ts` (with the `timestamp` stamped by
`generateAccessToken`). -/

structure ImapSession where
  tempEmailAddress : Bytes
  imapConfig : ImapConfig
  timestamp : Option Nat
deriving DecidableEq, Repr

/-- Every string field consists of octets. -/

def ValidConfig (c : ImapConfig) : Prop :=
  ValidBytes c.domain ∧ ValidBytes c.imap_server ∧ ValidBytes c.imap_user ∧
  ValidBytes c.imap_pass ∧ ∀ d, c.imap_dir = some d → ValidBytes d

/-- Every string field of the session consists of octets. -/

def ValidSession (s : ImapSession) : Prop :=
  ValidBytes s.tempEmailAddress ∧ ValidConfig s.imapConfig

/-! JSON object key literals (`"key":` as bytes). -/


def kDomain : Bytes := [34, 100, 111, 109, 97, 105, 110, 34, 58]

def kImapServer : Bytes := [34, 105, 109, 97, 112, 95, 115, 101, 114, 118, 101, 114, 34, 58]

def kImapPort : Bytes := [34, 105, 109, 97, 112, 95, 112, 111, 114, 116, 34, 58]

def kImapUser : Bytes := [34, 105, 109, 97, 112, 95, 117, 115, 101, 114, 34, 58]

def kImapPass : Bytes := [34, 105, 109, 97, 112, 95, 112, 97, 115, 115, 34, 58]

def kImapDir : Bytes := [34, 105, 109, 97, 112, 95, 100, 105, 114, 34, 58]

def kTempEmailAddress : Bytes :=
  [34, 116, 101, 109, 112, 69, 109, 97, 105, 108, 65, 100, 100, 114, 101, 115, 115, 34, 58]

def kImapConfig : Bytes := [34, 105, 109, 97, 112, 67, 111, 110, 102, 105, 103, 34, 58]

def kTimestamp : Bytes := [34, 116, 105, 109, 101, 115, 116, 97, 109, 112, 34, 58]

/-- `JSON.stringify` on an `ImapConfig` (fields in interface order; an
`undefined` optional field is omitted, as `JSON.stringify` does). -/

def serializeConfig (c : ImapConfig) : Bytes :=
  123 :: kDomain ++ jsonStringLit c.domain
  ++ 44 :: kImapServer ++ jsonStringLit c.imap_server
  ++ (match c.imap_port with
      | some p => 44 :: kImapPort ++ natLit p
      | none => [])
  ++ 44 :: kImapUser ++ jsonStringLit c.imap_user
  ++ 44 :: kImapPass ++ jsonStringLit c.imap_pass
  ++ (match c.imap_dir with
      | some d => 44 :: kImapDir ++ jsonStringLit d
      | none => [])
  ++ [125]

/-- `JSON.stringify(session)` as evaluated in `CryptoUtil` (object literal
order: tempEmailAddress, imapConfig, timestamp). -/

def serializeSession (s : ImapSession) : Bytes :=
  123 :: kTempEmailAddress ++ jsonStringLit s.tempEmailAddress
  ++ 44 :: kImapConfig ++ serializeConfig s.imapConfig
  ++ (match s.timestamp with
      | some t => 44 :: kTimestamp ++ natLit t
      | none => [])
  ++ [125]

/-- `JSON.parse` on the `ImapConfig` object shape emitted above. -/

def parseConfig (bs : Bytes) : Option (ImapConfig × Bytes) := do
  let bs ← dropLit (123 :: kDomain) bs
  let (domain, bs) ← parseJString bs
  let bs ← dropLit (44 :: kImapServer) bs
  let (server, bs) ← parseJString bs
  let (port, bs) ←
    match dropLit (44 :: kImapPort) bs with
    | some bs2 => (parseNatLit bs2).map (fun p => (some p.1, p.2))
    | none => some ((none : Option Nat), bs)
  let bs ← dropLit (44 :: kImapUser) bs
  let (user, bs) ← parseJString bs
  let bs ← dropLit (44 :: kImapPass) bs
  let (pass, bs) ← parseJString bs
  let (dir, bs) ←
    match dropLit (44 :: kImapDir) bs with
    | some bs2 => (parseJString bs2).map (fun p => (some p.1, p.2))
    | none => some ((none : Option Bytes), bs)
  let bs ← dropLit [125] bs
  some (⟨domain, server, port, user, pass, dir⟩, bs)

/-- `JSON.parse` on the `ImapSession` object shape emitted above. -/

def parseSession (bs : Bytes) : Option (ImapSession × Bytes) := do
  let bs ← dropLit (123 :: kTempEmailAddress) bs
  let (addr, bs) ← parseJString bs
  let bs ← dropLit (44 :: kImapConfig) bs
  let (cfg, bs) ← parseConfig bs
  let (ts, bs) ←
    match dropLit (44 :: kTimestamp) bs with
    | some bs2 => (parseNatLit bs2).map (fun p => (some p.1, p.2))
    | none => some ((none : Option Nat), bs)
  let bs ← dropLit [125] bs
  some (⟨addr, cfg, ts⟩, bs)

/-! ### The session codec (`src/utils/crypto.ts`) -/


/-- `CryptoUtil.encodeImapSession`: `base64(JSON.stringify(session))`. -/

def encodeImapSession (session : ImapSession) : List Nat :=
  base64Encode (serializeSession session)

/-- `CryptoUtil.decodeImapSession`: base64-decode, then `JSON.parse` (which
fails on trailing garbage). -/

def decodeImapSession (token : List Nat) : Option ImapSession := do
  let json ← base64Decode token
  let (s, rest) ← parseSession json
  if rest = [] then some s else none

/-- Executable stand-in for `crypto.createHash('sha256')` key derivation:
a 32-byte digest that is a function of the secret.  Only the digest length
and functional determinism are used by the theorems. -/

def sha256Model (secret : Bytes) : Bytes :=
  (List.range 32).map
    (fun i => (secret.foldl (fun a b => a * 257 + b) (i + 7) + i * 131) % 256)

/-- Executable stand-in for the AES-256-GCM keystream byte at offset `i`:
a function of key and IV, reproduced identically by decryption. -/

def gcmKeystreamByte (key iv : Bytes) (i : Nat) : Nat :=
  (key.foldl (fun a b => a * 257 + b) 3 + iv.foldl (fun a b => a * 257 + b) 5 + i * 97) % 256

/-- First `n` keystream bytes. -/

def gcmKeystream (key iv : Bytes) (n : Nat) : Bytes :=
  (List.range n).map (gcmKeystreamByte key iv)

/-- Byte-wise xor (stream-cipher application). -/

def xorBytes (xs ks : Bytes) : Bytes := List.zipWith (fun a b => a ^^^ b) xs ks

/-- Executable stand-in for the 16-byte GCM authentication tag: a function of
key, IV and ciphertext, recomputed and compared on decryption. -/

def gcmTag (key iv ct : Bytes) : Bytes :=
  (List.range 16).map
    (fun i => ((key ++ iv ++ ct).foldl (fun a b => a * 257 + b) (i + 11) + i * 101) % 256)

/-- `CryptoUtil.encryptImapSession`: the 16 random IV bytes drawn by
`crypto.randomBytes(16)` are an explicit argument; the output token is
`base64(IV ++ authTag ++ ciphertext)`. -/

def encryptImapSession (session : ImapSession) (secretKey : Bytes) (iv : Bytes) : List Nat :=
  let key := sha256Model secretKey
  let plaintext := serializeSession session
  let encrypted := xorBytes plaintext (gcmKeystream key iv plaintext.length)
  let authTag := gcmTag key iv encrypted
  base64Encode (iv ++ authTag ++ encrypted)

/-- `CryptoUtil.decryptImapSession`: split `IV ++ authTag ++ ciphertext` at
offsets 16 and 32, verify the tag (`decipher.final()` throws on mismatch),
decrypt, `JSON.parse`. -/

def decryptImapSession (token : List Nat) (secretKey : Bytes) : Option ImapSession := do
  let combined ← base64Decode token
  let iv := combined.take 16
  let authTag := (combined.drop 16).take 16
  let encrypted := combined.drop 32
  let key := sha256Model secretKey
  if authTag = gcmTag key iv encrypted then
    let decrypted := xorBytes encrypted (gcmKeystream key iv encrypted.length)
    let (s, rest) ← parseSession decrypted
    if rest = [] then some s else none
  else none

/-- The 16 random bytes drawn for the IV. -/

def ValidIV (iv : Bytes) : Prop := iv.length = 16 ∧ ValidBytes iv

/-! ### Token generation (`ImapProvider.generateAccessToken`, imap.ts 899-924)

`process.env.IMAP_ENCRYPT_TOKEN` selects the mode; `Date.now()` is the `now`
parameter; in encrypted mode `crypto.randomBytes(16)` is the `iv` parameter
and `process.env.IMAP_ENCRYPTION_KEY` the `encryptionKey` parameter. -/


/-- Plaintext mode: stamp `timestamp: Date.now()` and Base64-encode. -/

def generateAccessTokenPlain (config : ImapConfig) (tempEmailAddress : Bytes)
    (now : Nat) : List Nat :=
  encodeImapSession
    { tempEmailAddress := tempEmailAddress, imapConfig := config, timestamp := some now }

/-- Encrypted mode: stamp `timestamp: Date.now()` and encrypt. -/

def generateAccessTokenEncrypted (config : ImapConfig) (tempEmailAddress : Bytes)
    (now : Nat) (encryptionKey iv : Bytes) : List Nat :=
  encryptImapSession
    { tempEmailAddress := tempEmailAddress, imapConfig := config, timestamp := some now }
    encryptionKey iv

instance decOptValid : ∀ o : Option Bytes, Decidable (∀ d, o = some d → ValidBytes d)
  | none => isTrue (by intro d h; cases h)
  | some x =>
      if h : ValidBytes x then isTrue (by intro d hd; cases hd; exact h)
      else isFalse (fun hall => h (hall x rfl))

instance (c : ImapConfig) : Decidable (ValidConfig c) :=
  inferInstanceAs (Decidable (_ ∧ _ ∧ _ ∧ _ ∧ _))

instance (s : ImapSession) : Decidable (ValidSession s) :=
  inferInstanceAs (Decidable (_ ∧ _))

instance (iv : Bytes) : Decidable (ValidIV iv) :=
  inferInstanceAs (Decidable (_ ∧ _))

/-- Concrete demonstration config (`a@x.io` on server `m.x`). -/

def demoConfig : ImapConfig :=
  { domain := [120, 46, 105, 111]
    imap_server := [109, 46, 120]
    imap_port := some 993
    imap_user := [97, 64, 120, 46, 105, 111]
    imap_pass := [112, 49]
    imap_dir := none }

/-- Concrete temporary address bytes (`t@x.io`). -/

def demoAddr : Bytes := [116, 64, 120, 46, 105, 111]

/-- Concrete demonstration session. -/

def demoSession : ImapSession :=
  { tempEmailAddress := demoAddr, imapConfig := demoConfig, timestamp := some 1700000000000 }

/-- Concrete 16-byte IV. -/

def demoIV : Bytes := [0, 1, 2, 3, 4, 5, 6, 7, 8, 9, 10, 11, 12, 13, 14, 15]

/-- Concrete secret-key bytes (`key`). -/

def demoKey : Bytes := [107, 101, 121]

/-! ### C5: token expiry (`ImapProvider.validateTokenExpiration`, imap.ts 964-986)

`ttlHours` is `parseInt(process.env.IMAP_TOKEN_TTL_HOURS || '0', 10)` and may
be negative; `now` is `Date.now()`.  Both are explicit (integer) parameters. -/


/-- The only failure `validateTokenExpiration` can raise. -/

inductive TokenValidationError where
  | tokenExpired (ttlHours : Int)
deriving DecidableEq, Repr

/-- `validateTokenExpiration`: returns normally or throws the expiry error.
`if (!session.timestamp) return` is JavaScript truthiness: it is taken when
the field is absent and also when it is the falsy number `0`. -/

def validateTokenExpiration (session : ImapSession) (ttlHours : Int) (now : Int) :
    Except TokenValidationError Unit :=
  if ttlHours ≤ 0 then .ok ()
  else if session.timestamp.getD 0 = 0 then .ok ()
  else if now - (session.timestamp.getD 0 : Int) > ttlHours * 3600000 then
    .error (.tokenExpired ttlHours)
  else .ok ()

/-! ### Mailbox query engine (`ImapProvider.fetchRecentMessages`, imap.ts 556-643)

Fetched messages, envelopes and addresses mirror the imapflow objects the
loop reads.  `String.prototype.toLowerCase` is modelled on the ASCII range
(email addresses); `Date.now()` and the per-message `new Date()` fallback are
the `now` parameter (epoch milliseconds). -/


/-- An imapflow envelope address object (`{ address?, name? }`). -/

structure Address where
  address : Option String
  name : Option String
deriving DecidableEq, Repr

/-- The envelope fields the provider reads. -/

structure Envelope where
  «from» : Option (List Address)
  «to» : Option (List Address)
  cc : Option (List Address)
  bcc : Option (List Address)
  subject : Option String
  messageId : Option String
deriving DecidableEq, Repr

/-- One message yielded by `client.fetch` with
`{envelope, uid, bodyStructure, internalDate}` (the `bodyStructure` is not
read by the list path).  `flagSeen` is the value of
`msg.flags?.has('\\Seen') || false`. -/

structure FetchedMsg where
  uid : Nat
  envelope : Envelope
  internalDate : Option Nat
  flagSeen : Bool
  size : Option Nat
deriving DecidableEq, Repr

/-- `EmailContact` from `src/types/email.ts`. -/

structure EmailContact where
  email : String
  name : Option String
deriving DecidableEq, Repr

/-- The `EmailMessage` fields the provider fills (`src/types/email.ts`). -/

structure EmailMessage where
  id : String
  «from» : EmailContact
  «to» : List EmailContact
  cc : Option (List EmailContact)
  subject : String
  textContent : Option String
  htmlContent : Option String
  receivedAt : Nat
  isRead : Bool
  size : Option Nat
  provider : String
  messageId : Option String
deriving DecidableEq, Repr

/-- ASCII lower-casing of one character (`String.prototype.toLowerCase`
restricted to the ASCII range). -/

def lowerChar (ch : Char) : Char :=
  if 'A' ≤ ch ∧ ch ≤ 'Z' then Char.ofNat (ch.toNat + 32) else ch

/-- ASCII lower-casing of a string. -/

def lowerAscii (s : String) : String := ⟨s.data.map lowerChar⟩

/-- JavaScript `x || d` on an optional string (`undefined` and `''` are
falsy). -/

def jsStrOr (o : Option String) (d : String) : String :=
  match o with
  | some s => if s = "" then d else s
  | none => d

/-- `ImapProvider.parseEmailContact` (imap.ts 991-1000). -/

def parseEmailContact (addr : Option Address) : EmailContact :=
  match addr with
  | none => { email := "unknown@unknown.com", name := none }
  | some a => { email := jsStrOr a.address "unknown@unknown.com", name := a.name }

/-- 24 hours in milliseconds. -/

def dayMs : Nat := 24 * 60 * 60 * 1000

/-- `[...toAddresses, ...ccAddresses, ...bccAddresses]`: the lower-cased
recipient addresses (`addr.address?.toLowerCase()`, so entries may be
`undefined`); a missing header contributes `[]`. -/

def recipientsLower (e : Envelope) : List (Option String) :=
  (e.«to».getD []).map (fun a => a.address.map lowerAscii)
  ++ (e.cc.getD []).map (fun a => a.address.map lowerAscii)
  ++ (e.bcc.getD []).map (fun a => a.address.map lowerAscii)

/-- The two `continue` filters of the fetch loop: the internal date must not
predate the 24h cutoff (`receivedAt = msg.internalDate || new Date()`), and
the recipient set must contain the lower-cased temporary address exactly. -/

def keepMessage (now : Nat) (tempEmailAddress : String) (m : FetchedMsg) : Bool :=
  let receivedAt := m.internalDate.getD now
  if receivedAt < now - dayMs then false
  else (recipientsLower m.envelope).contains (some (lowerAscii tempEmailAddress))

/-- The `messages.push({...})` record construction of the fetch loop. -/

def convertMessage (now : Nat) (m : FetchedMsg) : EmailMessage :=
  { id := toString m.uid
    «from» := parseEmailContact (m.envelope.«from».bind List.head?)
    «to» := (m.envelope.«to».getD []).map (fun a => parseEmailContact (some a))
    cc := m.envelope.cc.map (fun l => l.map (fun a => parseEmailContact (some a)))
    subject := jsStrOr m.envelope.subject "(无主题)"
    textContent := none
    htmlContent := none
    receivedAt := m.internalDate.getD now
    isRead := m.flagSeen
    size := m.size
    provider := "imap"
    messageId := m.envelope.messageId }

/-- One step of the stable descending insertion modelling
`messages.sort((a, b) => b.receivedAt - a.receivedAt)`. -/

def insertByReceivedDesc (m : EmailMessage) : List EmailMessage → List EmailMessage
  | [] => [m]
  | h :: t =>
      if h.receivedAt ≤ m.receivedAt then m :: h :: t
      else h :: insertByReceivedDesc m t

/-- Stable sort by `receivedAt` descending (the unique stable result
required of `Array.prototype.sort` with this comparator). -/

def sortByReceivedDesc : List EmailMessage → List EmailMessage
  | [] => []
  | h :: t => insertByReceivedDesc h (sortByReceivedDesc t)

/-- `ImapProvider.fetchRecentMessages`: filter the fetched messages, convert
the survivors, sort newest-first, return everything. -/

def fetchRecentMessages (now : Nat) (tempEmailAddress : String)
    (msgs : List FetchedMsg) : List EmailMessage :=
  sortByReceivedDesc
    ((msgs.filter (keepMessage now tempEmailAddress)).map (convertMessage now))

/-- A fetched message with a single To recipient. -/

def demoFetched (addr : String) (d : Nat) : FetchedMsg :=
  { uid := 7
    envelope :=
      { «from» := some [{ address := some "sender@y.io", name := some "S" }]
        «to» := some [{ address := some addr, name := none }]
        cc := none
        bcc := none
        subject := some "hi"
        messageId := some "m1" }
    internalDate := some d
    flagSeen := false
    size := some 100 }

/-! ### Error classification (`ImapProvider.handleError`, imap.ts 1032-1095)
and the content-fetch error path (`fetchMessageContent`, imap.ts 648-670). -/


/-- Modelled from the spec: the `ChannelErrorType` enum of
`src/types/channel.ts` (the file is not under `src/`); §4.5/§7 list the
taxonomy NetworkError / AuthenticationError / ApiError / UnknownError. -/

inductive ChannelErrorType where
  | networkError
  | authenticationError
  | apiError
  | unknownError
deriving DecidableEq, Repr

/-- The classified error produced by `handleError` (type, detailed message,
retryable flag, operation tag). -/

structure ClassifiedError where
  errType : ChannelErrorType
  message : String
  retryable : Bool
  operation : String
deriving DecidableEq, Repr

/-- `needle` occurs as a contiguous run inside `haystack`. -/

def hasInfix : List Char → List Char → Bool
  | [], needle => needle.isEmpty
  | h :: t, needle => needle.isPrefixOf (h :: t) || hasInfix t needle

/-- JavaScript `s.includes(sub)`. -/

def jsIncludes (s sub : String) : Bool := hasInfix s.toList sub.toList

/-- `ImapProvider.handleError`: match known substrings of the raw error
message, otherwise fall through to `UNKNOWN_ERROR`; `retryable` is true
exactly for `NETWORK_ERROR`. -/

def handleError (errorMessage : String) (operation : String) : ClassifiedError :=
  if jsIncludes errorMessage "ECONNREFUSED" || jsIncludes errorMessage "ETIMEDOUT" then
    { errType := .networkError, message := "IMAP 连接失败：无法连接到服务器",
      retryable := true, operation := operation }
  else if jsIncludes errorMessage "AUTHENTICATIONFAILED" ||
      jsIncludes errorMessage "Invalid credentials" then
    { errType := .authenticationError, message := "IMAP 认证失败：用户名或密码错误",
      retryable := false, operation := operation }
  else if jsIncludes errorMessage "Mailbox does not exist" then
    { errType := .apiError, message := "IMAP 操作失败：邮箱目录不存在",
      retryable := false, operation := operation }
  else
    { errType := .unknownError, message := errorMessage,
      retryable := false, operation := operation }

/-- JS `parseInt(emailId, 10)` as used on message ids: value of the leading
decimal-digit run, `none` for `NaN` (no leading digit; sign/whitespace forms
also fail the uid lookup and land in the same error path). -/

def parseIntModel (s : String) : Option Nat :=
  let p := takeDigits (s.toList.map Char.toNat)
  if p.1 = [] then none else some (Nat.ofDigits 10 p.1.reverse)

/-- `client.fetchOne(uid, …, {uid: true})`: look the uid up in the mailbox;
a `NaN` uid matches nothing. -/

def fetchOneModel (mailbox : List FetchedMsg) (uid : Option Nat) : Option FetchedMsg :=
  uid.bind fun u => mailbox.find? (fun m => m.uid == u)

/-- `ImapProvider.fetchMessageContent`, restricted to the summary fields and
the error path (body-part download, raw-source fallback and attachment
collection are elided — no claim reads them): a missing message throws
`邮件不存在: ${emailId}`. -/

def fetchMessageContentModel (now : Nat) (mailbox : List FetchedMsg)
    (emailId : String) : Except String EmailMessage :=
  match fetchOneModel mailbox (parseIntModel emailId) with
  | none => .error ("邮件不存在: " ++ emailId)
  | some m => .ok (convertMessage now m)

/-- The error classification `getEmailContent` hands back (`none` on
success): any throw is classified by `handleError(error, 'getEmailContent')`. -/

def getEmailContentErr (now : Nat) (mailbox : List FetchedMsg)
    (emailId : String) : Option ClassifiedError :=
  match fetchMessageContentModel now mailbox emailId with
  | .ok _ => none
  | .error msg => some (handleError msg "getEmailContent")

/-- The raw message matches none of the classifier's trigger substrings. -/

def noTrigger (msg : String) : Bool :=
  !jsIncludes msg "ECONNREFUSED" && !jsIncludes msg "ETIMEDOUT" &&
  !jsIncludes msg "AUTHENTICATIONFAILED" && !jsIncludes msg "Invalid credentials" &&
  !jsIncludes msg "Mailbox does not exist"

/-! ### MIME structure traversal (`findBodyPart` imap.ts 761-798,
`findAttachments` imap.ts 803-859)

`bodyStructure` nodes are `any`-typed imapflow objects; the embedding keeps
exactly the fields the two functions read. -/


/-- A `bodyStructure` node: `type`/`subtype` (either a full `a/b` type or the
split pair), `part` path, `disposition`, `dispositionParameters.filename`,
`parameters.name`, `size`, `id` (content id), and `childNodes` (`none` when
the field is not an array). -/

inductive BodyStructure where
  | node
      (type : Option String)
      (subtype : Option String)
      (part : Option String)
      (disposition : Option String)
      (dispFilename : Option String)
      (paramName : Option String)
      (size : Option Nat)
      (id : Option String)
      (childNodes : Option (List BodyStructure))

def typeOf : BodyStructure → Option String
  | .node t _ _ _ _ _ _ _ _ => t

def subtypeOf : BodyStructure → Option String
  | .node _ st _ _ _ _ _ _ _ => st

def partOf : BodyStructure → Option String
  | .node _ _ p _ _ _ _ _ _ => p

def dispositionOf : BodyStructure → Option String
  | .node _ _ _ d _ _ _ _ _ => d

def dispFilenameOf : BodyStructure → Option String
  | .node _ _ _ _ f _ _ _ _ => f

def paramNameOf : BodyStructure → Option String
  | .node _ _ _ _ _ n _ _ _ => n

def sizeFieldOf : BodyStructure → Option Nat
  | .node _ _ _ _ _ _ s _ _ => s

def contentIdOf : BodyStructure → Option String
  | .node _ _ _ _ _ _ _ i _ => i

def childNodesOf : BodyStructure → Option (List BodyStructure)
  | .node _ _ _ _ _ _ _ _ c => c

/-- `structure.type?.toLowerCase() || ''`. -/

def jsLowerOpt (o : Option String) : String := (o.map lowerAscii).getD ""

/-- `String.prototype.startsWith` (character-list view of Lean's
`String.startsWith`; equivalent, and kinder to definitional unfolding). -/

def strStartsWith (s pfx : String) : Bool := pfx.data.isPrefixOf s.data

/-- The normalized full MIME type: the `type` string itself when it already
contains `/`, else `type/subtype` (or bare `type` when the subtype is
falsy). -/

def fullTypeOf (s : BodyStructure) : String :=
  let typeStr := jsLowerOpt (typeOf s)
  if typeStr.data.contains '/' then typeStr
  else
    let subtypeStr := jsLowerOpt (subtypeOf s)
    if subtypeStr = "" then typeStr else typeStr ++ "/" ++ subtypeStr

mutual

/-- `ImapProvider.findBodyPart`: return the part path (or `'1'`) when the
normalized type matches the target; recurse into `childNodes` only for
`multipart/*` nodes; first truthy child result wins. -/
def findBodyPart : BodyStructure → String → Option String
  | .node t st p d f n sz i c, mimeType =>
      if fullTypeOf (.node t st p d f n sz i c) = lowerAscii mimeType then
        some (jsStrOr p "1")
      else if strStartsWith (fullTypeOf (.node t st p d f n sz i c)) "multipart/" then
        match c with
        | some children => findBodyPartList children mimeType
        | none => none
      else none

/-- The `for (const childNode of structure.childNodes)` loop with its
`if (result) return result` early exit. -/
def findBodyPartList : List BodyStructure → String → Option String
  | [], _ => none
  | c :: rest, mimeType =>
      match findBodyPart c mimeType with
      | some r => if r = "" then findBodyPartList rest mimeType else some r
      | none => findBodyPartList rest mimeType

end

mutual

/-- Following the spec's words: the depth-first preorder list of nodes whose
normalized type equals the target, descending only below `multipart/*`
nodes. -/
def matchingNodes : BodyStructure → String → List BodyStructure
  | .node t st p d f n sz i c, target =>
      (if fullTypeOf (.node t st p d f n sz i c) = lowerAscii target then
        [BodyStructure.node t st p d f n sz i c] else [])
      ++ (if strStartsWith (fullTypeOf (.node t st p d f n sz i c)) "multipart/" then
            match c with
            | some children => matchingNodesList children target
            | none => []
          else [])

/-- Preorder matches of a child list. -/
def matchingNodesList : List BodyStructure → String → List BodyStructure
  | [], _ => []
  | c :: rest, target => matchingNodes c target ++ matchingNodesList rest target

end

/-- A leaf `bodyStructure` node with a full `type/subtype` split and a part
path. -/

def demoLeaf (t st part : String) : BodyStructure :=
  .node (some t) (some st) (some part) none none none (some 10) none none

/-- `multipart/mixed` over text/plain, text/html and an attachment leaf. -/

def demoTree : BodyStructure :=
  .node (some "multipart") (some "mixed") none none none none none none
    (some [demoLeaf "text" "plain" "1", demoLeaf "text" "html" "2",
           .node (some "application") (some "pdf") (some "3") (some "attachment")
             (some "a.pdf") none (some 2048) (some "cid3") none])

/-! ### Attachment collection (`ImapProvider.findAttachments`, imap.ts 803-859) -/


/-- One entry pushed into the `attachments` array. -/

structure AttachmentInfo where
  id : String
  filename : String
  contentType : String
  size : Nat
  inline : Bool
  contentId : Option String
deriving DecidableEq, Repr

/-- JavaScript truthiness of an optional string (`undefined` and `''` are
falsy). -/

def jsTruthy (o : Option String) : Bool :=
  match o with
  | none => false
  | some s => !(s == "")

/-- `structure.disposition?.toLowerCase()`. -/

def dispositionLowerOf (s : BodyStructure) : Option String :=
  (dispositionOf s).map lowerAscii

/-- The `isAttachment` test: disposition `attachment`/`inline`, or a truthy
`dispositionParameters.filename`, or a truthy `parameters.name`. -/

def isAttachmentNode (s : BodyStructure) : Bool :=
  dispositionLowerOf s == some "attachment" || dispositionLowerOf s == some "inline" ||
  jsTruthy (dispFilenameOf s) || jsTruthy (paramNameOf s)

/-- The `isTextContent` test: normalized type exactly `text/plain` or
`text/html`. -/

def isTextContentNode (s : BodyStructure) : Bool :=
  fullTypeOf s == "text/plain" || fullTypeOf s == "text/html"

/-- The object pushed for a matched node when `count` entries are already in
the accumulator: part path (or index) as id, filename chain with generated
fallback, normalized content type, size (`|| 0`), inline flag, content id. -/

def attEntry (s : BodyStructure) (count : Nat) : AttachmentInfo :=
  { id := jsStrOr (partOf s) (toString (count + 1))
    filename := jsStrOr (dispFilenameOf s)
      (jsStrOr (paramNameOf s) ("attachment-" ++ toString (count + 1)))
    contentType := fullTypeOf s
    size := (sizeFieldOf s).getD 0
    inline := dispositionLowerOf s == some "inline"
    contentId := contentIdOf s }

mutual

/-- `ImapProvider.findAttachments`: push an entry for a qualifying node, then
recurse into `childNodes` (only for `multipart/*` nodes) with the same
accumulator, regardless of whether the node itself matched. -/
def findAttachments : BodyStructure → List AttachmentInfo → List AttachmentInfo
  | .node t st p d f n sz i c, attachments =>
      let s := BodyStructure.node t st p d f n sz i c
      let acc2 :=
        if isAttachmentNode s && !isTextContentNode s then
          attachments ++ [attEntry s attachments.length]
        else attachments
      if strStartsWith (fullTypeOf s) "multipart/" then
        match c with
        | some children => findAttachmentsList children acc2
        | none => acc2
      else acc2

/-- The `for (const childNode of structure.childNodes)` loop (the child call
mutates the shared accumulator). -/
def findAttachmentsList : List BodyStructure → List AttachmentInfo → List AttachmentInfo
  | [], acc => acc
  | c :: rest, acc => findAttachmentsList rest (findAttachments c acc)

end

mutual

/-- Following the spec's words: the entries contributed by a (sub)tree when
`idx` attachments were already collected — one entry for the node itself
exactly when its disposition is attachment/inline or it carries a filename
parameter and it is not text/plain or text/html, then the children's entries
(descending only below `multipart/*`, regardless of the node's own match). -/
def attEntriesFrom : BodyStructure → Nat → List AttachmentInfo
  | .node t st p d f n sz i c, idx =>
      let s := BodyStructure.node t st p d f n sz i c
      let selfEntries :=
        if isAttachmentNode s && !isTextContentNode s then [attEntry s idx] else []
      selfEntries ++
        (if strStartsWith (fullTypeOf s) "multipart/" then
          match c with
          | some children => attEntriesListFrom children (idx + selfEntries.length)
          | none => []
        else [])

/-- Entries contributed by a child list, threading the running count. -/
def attEntriesListFrom : List BodyStructure → Nat → List AttachmentInfo
  | [], _ => []
  | c :: rest, idx =>
      attEntriesFrom c idx ++ attEntriesListFrom rest (idx + (attEntriesFrom c idx).length)

end

theorem b64Val_b64Char : ∀ n < 64, b64Val (b64Char n) = some n := by decide

theorem b64Char_ne_eq : ∀ n < 64, b64Char n ≠ 61 := by decide

theorem base64_roundtrip (bs : Bytes) (h : ValidBytes bs) :
    base64Decode (base64Encode bs) = some bs := by
  induction bs using base64Encode.induct with
  | case1 => decide
  | case2 b1 =>
      have hb1 : b1 < 256 := h b1 (by simp)
      have h1 : b1 / 4 < 64 := by omega
      have h2 : b1 % 4 * 16 < 64 := by omega
      simp [base64Encode, base64Decode, b64Val_b64Char _ h1, b64Val_b64Char _ h2]
      omega
  | case3 b1 b2 =>
      have hb1 : b1 < 256 := h b1 (by simp)
      have hb2 : b2 < 256 := h b2 (by simp)
      have h1 : b1 / 4 < 64 := by omega
      have h2 : b1 % 4 * 16 + b2 / 16 < 64 := by omega
      have h3 : b2 % 16 * 4 < 64 := by omega
      have hne : b64Char (b2 % 16 * 4) ≠ 61 := b64Char_ne_eq _ h3
      simp [base64Encode, base64Decode, b64Val_b64Char _ h1, b64Val_b64Char _ h2,
        b64Val_b64Char _ h3, hne]
      omega
  | case4 b1 b2 b3 rest ih =>
      have hb1 : b1 < 256 := h b1 (by simp)
      have hb2 : b2 < 256 := h b2 (by simp)
      have hb3 : b3 < 256 := h b3 (by simp)
      have hrest : ValidBytes rest := fun b hb => h b (by simp [hb])
      have h1 : b1 / 4 < 64 := by omega
      have h2 : b1 % 4 * 16 + b2 / 16 < 64 := by omega
      have h3 : b2 % 16 * 4 + b3 / 64 < 64 := by omega
      have h4 : b3 % 64 < 64 := by omega
      have he3 : b64Char (b2 % 16 * 4 + b3 / 64) ≠ 61 := b64Char_ne_eq _ h3
      have he4 : b64Char (b3 % 64) ≠ 61 := b64Char_ne_eq _ h4
      simp [base64Encode, base64Decode, b64Val_b64Char _ h1, b64Val_b64Char _ h2,
        b64Val_b64Char _ h3, b64Val_b64Char _ h4, he3, he4, ih hrest]
      omega

theorem hexVal_hexCh : ∀ n < 16, hexVal (hexCh n) = some n := by decide

theorem parseStringBody_escape (bs : Bytes) (rest : Bytes) :
    parseStringBody (jsonEscape bs ++ (34 :: rest)) = some (bs, rest) := by
  induction bs with
  | nil =>
      rw [jsonEscape, List.nil_append, parseStringBody.eq_def]
      norm_num
  | cons b bs ih =>
      simp only [jsonEscape, List.append_assoc]
      by_cases h34 : b = 34
      · subst h34
        rw [escByte]; norm_num
        rw [parseStringBody.eq_def]; norm_num [unescByte, ih]
      by_cases h92 : b = 92
      · subst h92
        rw [escByte]; norm_num
        rw [parseStringBody.eq_def]; norm_num [unescByte, ih]
      by_cases h8 : b = 8
      · subst h8
        rw [escByte]; norm_num
        rw [parseStringBody.eq_def]; norm_num [unescByte, ih]
      by_cases h9 : b = 9
      · subst h9
        rw [escByte]; norm_num
        rw [parseStringBody.eq_def]; norm_num [unescByte, ih]
      by_cases h10 : b = 10
      · subst h10
        rw [escByte]; norm_num
        rw [parseStringBody.eq_def]; norm_num [unescByte, ih]
      by_cases h12 : b = 12
      · subst h12
        rw [escByte]; norm_num
        rw [parseStringBody.eq_def]; norm_num [unescByte, ih]
      by_cases h13 : b = 13
      · subst h13
        rw [escByte]; norm_num
        rw [parseStringBody.eq_def]; norm_num [unescByte, ih]
      by_cases hc : b < 32
      · have hd1 : hexVal (hexCh (b / 16)) = some (b / 16) := hexVal_hexCh _ (by omega)
        have hd2 : hexVal (hexCh (b % 16)) = some (b % 16) :=
          hexVal_hexCh _ (Nat.mod_lt _ (by omega))
        simp only [escByte, if_neg h34, if_neg h92, if_neg h8, if_neg h9, if_neg h10,
          if_neg h12, if_neg h13, if_pos hc]
        rw [List.cons_append, List.cons_append, List.cons_append, List.cons_append,
          List.cons_append, List.cons_append, parseStringBody.eq_def]
        have hhd : hexVal 48 = some 0 := by decide
        norm_num [hhd, hd1, hd2, ih]
        omega
      · simp only [escByte, if_neg h34, if_neg h92, if_neg h8, if_neg h9, if_neg h10,
          if_neg h12, if_neg h13, if_neg hc, List.cons_append, List.nil_append]
        rw [parseStringBody.eq_def]
        simp [h34, h92, ih]

theorem takeDigits_map_append (ds : List Nat) (h : ∀ d ∈ ds, d < 10)
    (rest : Bytes) (hr : NotDigitStart rest) :
    takeDigits (ds.map (· + 48) ++ rest) = (ds, rest) := by
  induction ds with
  | nil =>
      cases rest with
      | nil => rfl
      | cons b bs => simp only [List.map_nil, List.nil_append, takeDigits]
                     rw [if_neg hr]
  | cons d ds ih =>
      have hd : d < 10 := h d (by simp)
      simp only [List.map_cons, List.cons_append, takeDigits]
      rw [if_pos (by omega)]
      have := ih (fun x hx => h x (by simp [hx])) 
      simp [this, Nat.add_sub_cancel]

theorem parseNatLit_natLit (n : Nat) (rest : Bytes) (hr : NotDigitStart rest) :
    parseNatLit (natLit n ++ rest) = some (n, rest) := by
  by_cases h0 : n = 0
  · subst h0
    have ht : takeDigits (List.map (· + 48) [0] ++ rest) = ([0], rest) :=
      takeDigits_map_append [0] (by simp) rest hr
    norm_num at ht
    simp only [natLit, if_pos rfl]
    simp [parseNatLit, ht, Nat.ofDigits]
  · have hdig : ∀ d ∈ (Nat.digits 10 n).reverse, d < 10 := by
      intro d hd
      exact Nat.digits_lt_base (by norm_num) (List.mem_reverse.mp hd)
    have ht := takeDigits_map_append _ hdig rest hr
    rw [List.map_reverse] at ht
    have hne : (Nat.digits 10 n).reverse ≠ [] := by
      simp [Nat.digits_ne_nil_iff_ne_zero, h0]
    simp only [natLit, if_neg h0]
    simp [parseNatLit, ht, hne, List.reverse_reverse, Nat.ofDigits_digits]

theorem dropLit_self (ls : Bytes) (bs : Bytes) : dropLit ls (ls ++ bs) = some bs := by
  induction ls with
  | nil => rfl
  | cons l ls ih => simp [dropLit, ih]

theorem parseJString_lit (bs rest : Bytes) :
    parseJString (jsonStringLit bs ++ rest) = some (bs, rest) := by
  have h := parseStringBody_escape bs rest
  simp [parseJString, jsonStringLit, dropLit, List.append_assoc] at h ⊢
  simpa using h

theorem parseConfig_serialize (c : ImapConfig) (rest : Bytes) :
    parseConfig (serializeConfig c ++ rest) = some (c, rest) := by
  obtain ⟨domain, server, port, user, pass, dir⟩ := c
  rw [serializeConfig, parseConfig]
  simp only [List.cons_append, List.append_assoc, List.nil_append]
  rw [show ∀ x, dropLit (123 :: kDomain) (123 :: (kDomain ++ x)) = some x by
        intro x; simp [dropLit, dropLit_self]]
  simp only [Option.bind_eq_bind, Option.some_bind, parseJString_lit]
  rw [show ∀ x, dropLit (44 :: kImapServer) (44 :: (kImapServer ++ x)) = some x by
        intro x; simp [dropLit, dropLit_self]]
  simp only [Option.some_bind, parseJString_lit]
  cases port with
  | some p =>
      dsimp only
      try simp only [List.cons_append, List.append_assoc, List.nil_append]
      rw [show ∀ x, dropLit (44 :: kImapPort) (44 :: (kImapPort ++ x)) = some x by
            intro x; simp [dropLit, dropLit_self]]
      dsimp only
      rw [parseNatLit_natLit p _ (by simp [NotDigitStart])]
      try simp only [Option.map_some, Option.some_bind]
      try simp only [Option.map_some', Option.some_bind]
      rw [show ∀ x, dropLit (44 :: kImapUser) (44 :: (kImapUser ++ x)) = some x by
            intro x; simp [dropLit, dropLit_self]]
      simp only [Option.some_bind, parseJString_lit]
      rw [show ∀ x, dropLit (44 :: kImapPass) (44 :: (kImapPass ++ x)) = some x by
            intro x; simp [dropLit, dropLit_self]]
      simp only [Option.some_bind, parseJString_lit]
      cases dir with
      | some d =>
          dsimp only
          try simp only [List.cons_append, List.append_assoc, List.nil_append]
          rw [show ∀ x, dropLit (44 :: kImapDir) (44 :: (kImapDir ++ x)) = some x by
                intro x; simp [dropLit, dropLit_self]]
          dsimp only
          simp [parseJString_lit, dropLit]
      | none =>
          dsimp only [List.nil_append]
          rw [show ∀ x, dropLit (44 :: kImapDir) (125 :: x) = none by
                intro x; simp [dropLit, kImapDir]]
          dsimp only
          simp [dropLit]
  | none =>
      dsimp only [List.nil_append]
      try simp only [List.cons_append, List.append_assoc, List.nil_append]
      rw [show ∀ x, dropLit (44 :: kImapPort) (44 :: (kImapUser ++ x)) = none by
            intro x; simp [dropLit, kImapPort, kImapUser, List.cons_append]]
      dsimp only
      rw [show ∀ x, dropLit (44 :: kImapUser) (44 :: (kImapUser ++ x)) = some x by
            intro x; simp [dropLit, dropLit_self]]
      simp only [Option.some_bind, parseJString_lit]
      rw [show ∀ x, dropLit (44 :: kImapPass) (44 :: (kImapPass ++ x)) = some x by
            intro x; simp [dropLit, dropLit_self]]
      simp only [Option.some_bind, parseJString_lit]
      cases dir with
      | some d =>
          dsimp only
          try simp only [List.cons_append, List.append_assoc, List.nil_append]
          rw [show ∀ x, dropLit (44 :: kImapDir) (44 :: (kImapDir ++ x)) = some x by
                intro x; simp [dropLit, dropLit_self]]
          dsimp only
          simp [parseJString_lit, dropLit]
      | none =>
          dsimp only [List.nil_append]
          rw [show ∀ x, dropLit (44 :: kImapDir) (125 :: x) = none by
                intro x; simp [dropLit, kImapDir]]
          dsimp only
          simp [dropLit]

theorem parseSession_serialize (s : ImapSession) (rest : Bytes) :
    parseSession (serializeSession s ++ rest) = some (s, rest) := by
  obtain ⟨addr, cfg, ts⟩ := s
  rw [serializeSession, parseSession]
  simp only [List.cons_append, List.append_assoc, List.nil_append]
  rw [show ∀ x, dropLit (123 :: kTempEmailAddress) (123 :: (kTempEmailAddress ++ x)) = some x by
        intro x; simp [dropLit, dropLit_self]]
  simp only [Option.bind_eq_bind, Option.some_bind, parseJString_lit]
  rw [show ∀ x, dropLit (44 :: kImapConfig) (44 :: (kImapConfig ++ x)) = some x by
        intro x; simp [dropLit, dropLit_self]]
  simp only [Option.some_bind]
  rw [parseConfig_serialize]
  simp only [Option.some_bind]
  cases ts with
  | some t =>
      dsimp only
      try simp only [List.cons_append, List.append_assoc, List.nil_append]
      rw [show ∀ x, dropLit (44 :: kTimestamp) (44 :: (kTimestamp ++ x)) = some x by
            intro x; simp [dropLit, dropLit_self]]
      dsimp only
      rw [parseNatLit_natLit t _ (by simp [NotDigitStart])]
      simp [dropLit]
  | none =>
      dsimp only [List.nil_append]
      rw [show ∀ x, dropLit (44 :: kTimestamp) (125 :: x) = none by
            intro x; simp [dropLit, kTimestamp]]
      dsimp only
      simp [dropLit]

/-! ### Octet bounds for serialized sessions -/


theorem ValidBytes.app {xs ys : Bytes} (hx : ValidBytes xs) (hy : ValidBytes ys) :
    ValidBytes (xs ++ ys) := fun b hb => (List.mem_append.mp hb).elim (hx b) (hy b)

theorem ValidBytes.consB {b : Nat} {bs : Bytes} (hb : b < 256) (h : ValidBytes bs) :
    ValidBytes (b :: bs) := by
  intro x hx
  rcases List.mem_cons.mp hx with rfl | hx
  · exact hb
  · exact h x hx

theorem hexCh_lt (n : Nat) (h : n < 16) : hexCh n < 256 := by
  unfold hexCh; split <;> omega

theorem validBytes_escByte (b : Nat) (hb : b < 256) : ValidBytes (escByte b) := by
  intro x hx
  have hc1 := hexCh_lt (b / 16) (by omega)
  have hc2 := hexCh_lt (b % 16) (by omega)
  unfold escByte at hx
  split_ifs at hx <;> simp at hx <;> omega

theorem validBytes_jsonEscape (bs : Bytes) (h : ValidBytes bs) :
    ValidBytes (jsonEscape bs) := by
  induction bs with
  | nil => intro x hx; simp [jsonEscape] at hx
  | cons b bs ih =>
      exact ValidBytes.app (validBytes_escByte b (h b (by simp)))
        (ih fun x hx => h x (by simp [hx]))

theorem validBytes_jsonStringLit (bs : Bytes) (h : ValidBytes bs) :
    ValidBytes (jsonStringLit bs) :=
  ValidBytes.consB (by norm_num)
    (ValidBytes.app (validBytes_jsonEscape bs h) (by decide))

theorem validBytes_natLit (n : Nat) : ValidBytes (natLit n) := by
  intro x hx
  unfold natLit at hx
  split_ifs at hx with h0
  · simp at hx; omega
  · obtain ⟨d, hd, rfl⟩ := List.mem_map.mp hx
    have : d < 10 := Nat.digits_lt_base (by norm_num) (List.mem_reverse.mp hd)
    omega

theorem validBytes_serializeConfig (c : ImapConfig) (h : ValidConfig c) :
    ValidBytes (serializeConfig c) := by
  obtain ⟨hdom, hser, huser, hpass, hdir⟩ := h
  have hPort : ValidBytes (match c.imap_port with
      | some p => 44 :: kImapPort ++ natLit p
      | none => []) := by
    cases c.imap_port with
    | some p => exact ValidBytes.app (by decide) (validBytes_natLit p)
    | none => intro x hx; simp at hx
  have hDir : ValidBytes (match c.imap_dir with
      | some d => 44 :: kImapDir ++ jsonStringLit d
      | none => []) := by
    cases hd : c.imap_dir with
    | some d => exact ValidBytes.app (by decide) (validBytes_jsonStringLit d (hdir d hd))
    | none => intro x hx; simp at hx
  unfold serializeConfig
  exact ((((((((((by decide : ValidBytes (123 :: kDomain)).app
    (validBytes_jsonStringLit _ hdom)).app
    (by decide : ValidBytes (44 :: kImapServer))).app
    (validBytes_jsonStringLit _ hser)).app
    hPort).app
    (by decide : ValidBytes (44 :: kImapUser))).app
    (validBytes_jsonStringLit _ huser)).app
    (by decide : ValidBytes (44 :: kImapPass))).app
    (validBytes_jsonStringLit _ hpass)).app
    hDir).app
    (by decide : ValidBytes [125])

theorem validBytes_serializeSession (s : ImapSession) (h : ValidSession s) :
    ValidBytes (serializeSession s) := by
  obtain ⟨haddr, hcfg⟩ := h
  have hTs : ValidBytes (match s.timestamp with
      | some t => 44 :: kTimestamp ++ natLit t
      | none => []) := by
    cases s.timestamp with
    | some t => exact ValidBytes.app (by decide) (validBytes_natLit t)
    | none => intro x hx; simp at hx
  unfold serializeSession
  exact (((((by decide : ValidBytes (123 :: kTempEmailAddress)).app
    (validBytes_jsonStringLit _ haddr)).app
    (by decide : ValidBytes (44 :: kImapConfig))).app
    (validBytes_serializeConfig _ hcfg)).app
    hTs).app
    (by decide : ValidBytes [125])

theorem xorBytes_involutive (pt ks : Bytes) (h : ks.length = pt.length) :
    xorBytes (xorBytes pt ks) ks = pt := by
  induction pt generalizing ks with
  | nil => simp [xorBytes]
  | cons a pt ih =>
      cases ks with
      | nil => simp at h
      | cons k ks =>
          simp only [xorBytes, List.zipWith_cons_cons, List.cons.injEq]
          refine ⟨?_, ih ks (by simpa using h)⟩
          simp [Nat.xor_assoc]

theorem length_xorBytes (xs ks : Bytes) : (xorBytes xs ks).length = min xs.length ks.length := by
  simp [xorBytes]

theorem xor_lt_256 (a k : Nat) (ha : a < 256) (hk : k < 256) : a ^^^ k < 256 := by
  have h256 : (256 : Nat) = 2 ^ 8 := by norm_num
  rw [h256] at ha hk ⊢
  exact Nat.xor_lt_two_pow ha hk

theorem validBytes_xorBytes :
    ∀ xs ks : Bytes, ValidBytes xs → ValidBytes ks → ValidBytes (xorBytes xs ks)
  | [], _, _, _ => by intro b hb; simp [xorBytes] at hb
  | _ :: _, [], _, _ => by intro b hb; simp [xorBytes] at hb
  | a :: xs, k :: ks, hx, hk => by
      intro b hb
      simp only [xorBytes, List.zipWith_cons_cons, List.mem_cons] at hb
      rcases hb with rfl | hb
      · exact xor_lt_256 _ _ (hx a (by simp)) (hk k (by simp))
      · exact validBytes_xorBytes xs ks (fun y hy => hx y (by simp [hy]))
          (fun y hy => hk y (by simp [hy])) b hb

theorem validBytes_gcmTag (key iv ct : Bytes) : ValidBytes (gcmTag key iv ct) := by
  intro b hb
  obtain ⟨i, _, rfl⟩ := List.mem_map.mp hb
  exact Nat.mod_lt _ (by norm_num)

theorem length_gcmTag (key iv ct : Bytes) : (gcmTag key iv ct).length = 16 := by
  simp [gcmTag]

theorem length_gcmKeystream (key iv : Bytes) (n : Nat) :
    (gcmKeystream key iv n).length = n := by
  simp [gcmKeystream]

theorem validBytes_gcmKeystream (key iv : Bytes) (n : Nat) :
    ValidBytes (gcmKeystream key iv n) := by
  intro b hb
  obtain ⟨i, _, rfl⟩ := List.mem_map.mp hb
  exact Nat.mod_lt _ (by norm_num)

theorem decodeImapSession_encodeImapSession (s : ImapSession) (h : ValidSession s) :
    decodeImapSession (encodeImapSession s) = some s := by
  unfold encodeImapSession decodeImapSession
  rw [base64_roundtrip _ (validBytes_serializeSession s h)]
  have hp := parseSession_serialize s []
  rw [List.append_nil] at hp
  simp [hp]

theorem decryptImapSession_encryptImapSession (s : ImapSession) (k iv : Bytes)
    (hs : ValidSession s) (hiv : ValidIV iv) :
    decryptImapSession (encryptImapSession s k iv) k = some s := by
  obtain ⟨hlen, hivv⟩ := hiv
  unfold encryptImapSession decryptImapSession
  have hptv : ValidBytes (serializeSession s) := validBytes_serializeSession s hs
  have hctv : ValidBytes (xorBytes (serializeSession s)
      (gcmKeystream (sha256Model k) iv (serializeSession s).length)) :=
    validBytes_xorBytes _ _ hptv (validBytes_gcmKeystream _ _ _)
  have htagv := validBytes_gcmTag (sha256Model k) iv
      (xorBytes (serializeSession s) (gcmKeystream (sha256Model k) iv (serializeSession s).length))
  have hall : ValidBytes ((iv ++ gcmTag (sha256Model k) iv
      (xorBytes (serializeSession s) (gcmKeystream (sha256Model k) iv (serializeSession s).length)))
      ++ xorBytes (serializeSession s) (gcmKeystream (sha256Model k) iv (serializeSession s).length)) :=
    (hivv.app htagv).app hctv
  simp only []
  rw [base64_roundtrip _ hall]
  have htake : ∀ tl : Bytes, (iv ++ tl).take 16 = iv := by
    intro tl
    rw [show (16 : Nat) = iv.length from hlen.symm, List.take_left]
  have hdrop16 : ∀ tl : Bytes, (iv ++ tl).drop 16 = tl := by
    intro tl
    rw [show (16 : Nat) = iv.length from hlen.symm, List.drop_left]
  have htag : ∀ tg tl : Bytes, tg.length = 16 → ((iv ++ (tg ++ tl)).drop 16).take 16 = tg := by
    intro tg tl htg
    rw [hdrop16, show (16 : Nat) = tg.length from htg.symm, List.take_left]
  have hdrop32 : ∀ tg tl : Bytes, tg.length = 16 → (iv ++ (tg ++ tl)).drop 32 = tl := by
    intro tg tl htg
    have : (32 : Nat) = 16 + 16 := rfl
    rw [this, ← List.drop_drop, hdrop16, show (16 : Nat) = tg.length from htg.symm,
      List.drop_left]
  simp only [List.append_assoc, Option.bind_eq_bind, Option.some_bind]
  rw [htake, htag _ _ (length_gcmTag _ _ _), hdrop32 _ _ (length_gcmTag _ _ _)]
  rw [if_pos rfl]
  have hctlen : (xorBytes (serializeSession s)
      (gcmKeystream (sha256Model k) iv (serializeSession s).length)).length
      = (serializeSession s).length := by
    rw [length_xorBytes, length_gcmKeystream, min_self]
  rw [hctlen, xorBytes_involutive _ _ (by rw [length_gcmKeystream])]
  have hp := parseSession_serialize s []
  rw [List.append_nil] at hp
  simp [hp]

/-- C1: for every valid session, decoding the token produced by encoding it
returns the same session, in both codec modes: plaintext
(`decodeImapSession ∘ encodeImapSession`) and encrypted with the same secret
key (`decryptImapSession ∘ encryptImapSession`, for every 16-byte random
IV). -/

theorem claim_C1_codec_roundtrip :
    (∀ s : ImapSession, ValidSession s →
        decodeImapSession (encodeImapSession s) = some s) ∧
    (∀ (s : ImapSession) (k iv : Bytes), ValidSession s → ValidIV iv →
        decryptImapSession (encryptImapSession s k iv) k = some s) :=
  ⟨decodeImapSession_encodeImapSession,
   fun s k iv hs hiv => decryptImapSession_encryptImapSession s k iv hs hiv⟩

/-- Witness for C1 at a concrete session, key and IV. -/

theorem claim_C1_codec_roundtrip_witness :
    decodeImapSession (encodeImapSession demoSession) = some demoSession ∧
    decryptImapSession (encryptImapSession demoSession demoKey demoIV) demoKey
      = some demoSession :=
  ⟨claim_C1_codec_roundtrip.1 demoSession (by decide),
   claim_C1_codec_roundtrip.2 demoSession demoKey demoIV (by decide) (by decide)⟩

/-! ### C4: token freshness -/


theorem take16_append {iv : Bytes} (tl : Bytes) (h : iv.length = 16) :
    (iv ++ tl).take 16 = iv := by
  rw [show (16 : Nat) = iv.length from h.symm, List.take_left]

/-- C4 counterexample: the claim says two distinct encode calls never produce
byte-identical tokens, but `Date.now()` has millisecond granularity, so two
calls can both observe the same clock value; with equal timestamps the
plaintext-mode encoding is deterministic and the two tokens coincide. -/

theorem claim_C4_counterexample :
    ¬ (∀ t1 t2 : Nat,
        generateAccessTokenPlain demoConfig demoAddr t1 ≠
        generateAccessTokenPlain demoConfig demoAddr t2) :=
  fun h => h 1700000000000 1700000000000 rfl

/-- C4 amended: every encode call stamps `timestamp := Date.now()` into the
session, and two encode calls whose stamped timestamps differ always produce
different tokens; in encrypted mode the tokens differ whenever the timestamps
or the random IVs differ.  (Two plaintext-mode calls within the same
millisecond produce byte-identical tokens.) -/

theorem claim_C4_fresh_timestamp_uniqueness :
    (∀ (c : ImapConfig) (a : Bytes) (t : Nat), ValidConfig c → ValidBytes a →
        decodeImapSession (generateAccessTokenPlain c a t)
          = some ⟨a, c, some t⟩) ∧
    (∀ (c : ImapConfig) (a : Bytes) (t1 t2 : Nat), ValidConfig c → ValidBytes a →
        t1 ≠ t2 →
        generateAccessTokenPlain c a t1 ≠ generateAccessTokenPlain c a t2) ∧
    (∀ (c : ImapConfig) (a k : Bytes) (t1 t2 : Nat) (iv1 iv2 : Bytes),
        ValidConfig c → ValidBytes a → ValidIV iv1 → ValidIV iv2 →
        (t1 ≠ t2 ∨ iv1 ≠ iv2) →
        generateAccessTokenEncrypted c a t1 k iv1 ≠
        generateAccessTokenEncrypted c a t2 k iv2) := by
  refine ⟨?_, ?_, ?_⟩
  · intro c a t hc ha
    exact decodeImapSession_encodeImapSession _ ⟨ha, hc⟩
  · intro c a t1 t2 hc ha hne heq
    have h1 := decodeImapSession_encodeImapSession
      ⟨a, c, some t1⟩ (⟨ha, hc⟩ : ValidSession _)
    have h2 := decodeImapSession_encodeImapSession
      ⟨a, c, some t2⟩ (⟨ha, hc⟩ : ValidSession _)
    unfold generateAccessTokenPlain at heq
    rw [heq] at h1
    rw [h1] at h2
    simp only [Option.some.injEq, ImapSession.mk.injEq, and_true, true_and] at h2
    exact hne h2
  · intro c a k t1 t2 iv1 iv2 hc ha hiv1 hiv2 hne heq
    have h1 := decryptImapSession_encryptImapSession
      ⟨a, c, some t1⟩ k iv1 (⟨ha, hc⟩ : ValidSession _) hiv1
    have h2 := decryptImapSession_encryptImapSession
      ⟨a, c, some t2⟩ k iv2 (⟨ha, hc⟩ : ValidSession _) hiv2
    unfold generateAccessTokenEncrypted at heq
    rw [heq] at h1
    rw [h1] at h2
    simp only [Option.some.injEq, ImapSession.mk.injEq, and_true, true_and] at h2
    have ht : t1 = t2 := h2
    rcases hne with hne | hne
    · exact hne ht
    · -- equal tokens decode to equal byte strings, whose first 16 bytes are the IVs
      subst ht
      apply hne
      have hb1 := base64_roundtrip
        (iv1 ++ gcmTag (sha256Model k) iv1
            (xorBytes (serializeSession ⟨a, c, some t1⟩)
              (gcmKeystream (sha256Model k) iv1 (serializeSession ⟨a, c, some t1⟩).length))
          ++ xorBytes (serializeSession ⟨a, c, some t1⟩)
              (gcmKeystream (sha256Model k) iv1 (serializeSession ⟨a, c, some t1⟩).length))
        ((hiv1.2.app (validBytes_gcmTag _ _ _)).app
          (validBytes_xorBytes _ _ (validBytes_serializeSession _ ⟨ha, hc⟩)
            (validBytes_gcmKeystream _ _ _)))
      have hb2 := base64_roundtrip
        (iv2 ++ gcmTag (sha256Model k) iv2
            (xorBytes (serializeSession ⟨a, c, some t1⟩)
              (gcmKeystream (sha256Model k) iv2 (serializeSession ⟨a, c, some t1⟩).length))
          ++ xorBytes (serializeSession ⟨a, c, some t1⟩)
              (gcmKeystream (sha256Model k) iv2 (serializeSession ⟨a, c, some t1⟩).length))
        ((hiv2.2.app (validBytes_gcmTag _ _ _)).app
          (validBytes_xorBytes _ _ (validBytes_serializeSession _ ⟨ha, hc⟩)
            (validBytes_gcmKeystream _ _ _)))
      unfold encryptImapSession at heq
      rw [heq] at hb1
      rw [hb1] at hb2
      have hbytes := Option.some.inj hb2
      have := congrArg (List.take 16) hbytes
      rwa [List.append_assoc, List.append_assoc, take16_append _ hiv2.1,
        take16_append _ hiv1.1] at this

/-- Witness for the amended C4 at concrete configs, timestamps and IVs. -/

theorem claim_C4_fresh_timestamp_uniqueness_witness :
    decodeImapSession (generateAccessTokenPlain demoConfig demoAddr 5)
        = some ⟨demoAddr, demoConfig, some 5⟩ ∧
    generateAccessTokenPlain demoConfig demoAddr 5 ≠
      generateAccessTokenPlain demoConfig demoAddr 6 ∧
    generateAccessTokenEncrypted demoConfig demoAddr 5 demoKey demoIV ≠
      generateAccessTokenEncrypted demoConfig demoAddr 6 demoKey demoIV :=
  ⟨claim_C4_fresh_timestamp_uniqueness.1 demoConfig demoAddr 5 (by decide) (by decide),
   claim_C4_fresh_timestamp_uniqueness.2.1 demoConfig demoAddr 5 6
     (by decide) (by decide) (by decide),
   claim_C4_fresh_timestamp_uniqueness.2.2 demoConfig demoAddr demoKey 5 6 demoIV demoIV
     (by decide) (by decide) (by decide) (by decide) (Or.inl (by decide))⟩

/-- C5 counterexample: a session whose `timestamp` field is present but `0`
is ancient (issued at the epoch), yet with `ttl = 1` hour and the clock at
1.7e12 ms the validator succeeds, because `!session.timestamp` treats the
falsy value `0` as "no timestamp".  The claim requires a `TokenExpiredError`
here (timestamp present, age far beyond the ttl). -/

theorem claim_C5_counterexample :
    validateTokenExpiration ⟨demoAddr, demoConfig, some 0⟩ 1 1700000000000 = .ok () ∧
    (⟨demoAddr, demoConfig, some 0⟩ : ImapSession).timestamp = some 0 ∧
    (0 : Int) < 1 ∧ (1700000000000 : Int) - 0 > 1 * 3600000 := by
  refine ⟨rfl, rfl, by norm_num, by norm_num⟩

/-- C5 amended: validation is a no-op when `ttl ≤ 0`, when the session has no
`issuedAt` timestamp, or when the timestamp is the falsy value `0`; otherwise
it fails — always with `TokenExpiredError` — exactly when
`now − issuedAt > ttlHours` (in milliseconds). -/

theorem claim_C5_expiry_validation :
    ∀ (s : ImapSession) (ttlHours now : Int),
      (validateTokenExpiration s ttlHours now = .error (.tokenExpired ttlHours) ↔
        (0 < ttlHours ∧ ∃ ts : Nat, s.timestamp = some ts ∧ ts ≠ 0 ∧
          now - (ts : Int) > ttlHours * 3600000)) ∧
      ((ttlHours ≤ 0 ∨ s.timestamp = none ∨ s.timestamp = some 0) →
        validateTokenExpiration s ttlHours now = .ok ()) ∧
      (validateTokenExpiration s ttlHours now = .ok () ∨
        validateTokenExpiration s ttlHours now = .error (.tokenExpired ttlHours)) := by
  intro s ttl now
  unfold validateTokenExpiration
  refine ⟨⟨?_, ?_⟩, ?_, ?_⟩
  · intro h
    split_ifs at h with h1 h2 h3
    refine ⟨by omega, s.timestamp.getD 0, ?_, h2, h3⟩
    cases hts : s.timestamp with
    | none => rw [hts] at h2; simp at h2
    | some ts => simp
  · rintro ⟨httl, ts, hts, h0, hgt⟩
    rw [if_neg (by omega), hts]
    simp only [Option.getD_some]
    rw [if_neg h0, if_pos hgt]
  · rintro (h | h | h)
    · rw [if_pos h]
    · rw [h]; split_ifs <;> simp_all
    · rw [h]; split_ifs <;> simp_all
  · split_ifs <;> simp

/-- Witness for the amended C5: a session one millisecond past its ttl
expires; the same session with ttl 0 passes. -/

theorem claim_C5_expiry_validation_witness :
    validateTokenExpiration ⟨demoAddr, demoConfig, some 1⟩ 1 3600002
      = .error (.tokenExpired 1) ∧
    validateTokenExpiration ⟨demoAddr, demoConfig, some 1⟩ 0 3600002 = .ok () :=
  ⟨(claim_C5_expiry_validation ⟨demoAddr, demoConfig, some 1⟩ 1 3600002).1.mpr
      ⟨by norm_num, 1, rfl, by norm_num, by norm_num⟩,
   (claim_C5_expiry_validation ⟨demoAddr, demoConfig, some 1⟩ 0 3600002).2.1
      (Or.inl (by norm_num))⟩

theorem mem_insertByReceivedDesc {x m : EmailMessage} {l : List EmailMessage} :
    x ∈ insertByReceivedDesc m l ↔ x = m ∨ x ∈ l := by
  induction l with
  | nil => simp [insertByReceivedDesc]
  | cons h t ih =>
      unfold insertByReceivedDesc
      split_ifs with hle
      · simp
      · simp only [List.mem_cons, ih]
        tauto

theorem perm_insertByReceivedDesc (m : EmailMessage) (l : List EmailMessage) :
    (insertByReceivedDesc m l).Perm (m :: l) := by
  induction l with
  | nil => simp [insertByReceivedDesc]
  | cons h t ih =>
      unfold insertByReceivedDesc
      split_ifs with hle
      · exact List.Perm.refl _
      · exact (ih.cons h).trans (List.Perm.swap m h t)

theorem perm_sortByReceivedDesc (l : List EmailMessage) :
    (sortByReceivedDesc l).Perm l := by
  induction l with
  | nil => simp [sortByReceivedDesc]
  | cons h t ih =>
      exact (perm_insertByReceivedDesc h (sortByReceivedDesc t)).trans (ih.cons h)

theorem sorted_insertByReceivedDesc (m : EmailMessage) (l : List EmailMessage)
    (h : l.Sorted (fun a b => b.receivedAt ≤ a.receivedAt)) :
    (insertByReceivedDesc m l).Sorted (fun a b => b.receivedAt ≤ a.receivedAt) := by
  induction l with
  | nil => simp [insertByReceivedDesc]
  | cons hd t ih =>
      rw [List.sorted_cons] at h
      unfold insertByReceivedDesc
      split_ifs with hle
      · rw [List.sorted_cons]
        refine ⟨?_, List.sorted_cons.mpr h⟩
        intro b hb
        rcases List.mem_cons.mp hb with rfl | hb
        · exact hle
        · exact le_trans (h.1 b hb) hle
      · rw [List.sorted_cons]
        refine ⟨?_, ih h.2⟩
        intro b hb
        rcases mem_insertByReceivedDesc.mp hb with rfl | hb
        · omega
        · exact h.1 b hb

theorem sorted_sortByReceivedDesc (l : List EmailMessage) :
    (sortByReceivedDesc l).Sorted (fun a b => b.receivedAt ≤ a.receivedAt) := by
  induction l with
  | nil => simp [sortByReceivedDesc]
  | cons h t ih => exact sorted_insertByReceivedDesc h _ ih

/-- C3: a message survives the list filter only if the lower-cased To/Cc/Bcc
address set contains the lower-cased temporary address exactly; concretely, a
message addressed to `sub.a@x.com` is excluded when querying `a@x.com`, and
one addressed to `a@x.com` is excluded when querying `b@x.com`. -/

theorem claim_C3_exact_recipient_filter :
    (∀ (now : Nat) (addr : String) (msgs : List FetchedMsg) (e : EmailMessage),
        e ∈ fetchRecentMessages now addr msgs →
        ∃ m ∈ msgs,
          (recipientsLower m.envelope).contains (some (lowerAscii addr)) = true ∧
          e = convertMessage now m) ∧
    fetchRecentMessages 1700000000000 "a@x.com"
      [demoFetched "sub.a@x.com" 1700000000000] = [] ∧
    fetchRecentMessages 1700000000000 "b@x.com"
      [demoFetched "a@x.com" 1700000000000] = [] := by
  refine ⟨?_, by decide, by decide⟩
  intro now addr msgs e he
  have he' := (perm_sortByReceivedDesc _).mem_iff.mp he
  obtain ⟨m, hm, rfl⟩ := List.mem_map.mp he'
  obtain ⟨hm', hk⟩ := List.mem_filter.mp hm
  refine ⟨m, hm', ?_, rfl⟩
  unfold keepMessage at hk
  dsimp only at hk
  split_ifs at hk with hd
  exact hk

/-- Witness for C3: a message addressed exactly to the queried temporary
address is kept, and the source message satisfies the filter predicate. -/

theorem claim_C3_exact_recipient_filter_witness :
    ∃ m ∈ [demoFetched "a@x.com" 1700000000000],
      (recipientsLower m.envelope).contains (some (lowerAscii "a@x.com")) = true ∧
      convertMessage 1700000000000 (demoFetched "a@x.com" 1700000000000)
        = convertMessage 1700000000000 m :=
  claim_C3_exact_recipient_filter.1 1700000000000 "a@x.com"
    [demoFetched "a@x.com" 1700000000000]
    (convertMessage 1700000000000 (demoFetched "a@x.com" 1700000000000))
    (by decide)

/-- C6: every returned message's `receivedAt` is at or after the 24-hour
cutoff, the result is sorted by `receivedAt` descending, and the result is a
permutation of *all* converted survivors of the two filters (no truncation at
this layer). -/

theorem claim_C6_result_postconditions :
    ∀ (now : Nat) (addr : String) (msgs : List FetchedMsg),
      (∀ e ∈ fetchRecentMessages now addr msgs, now - dayMs ≤ e.receivedAt) ∧
      (fetchRecentMessages now addr msgs).Sorted
        (fun a b => b.receivedAt ≤ a.receivedAt) ∧
      (fetchRecentMessages now addr msgs).Perm
        ((msgs.filter (keepMessage now addr)).map (convertMessage now)) := by
  intro now addr msgs
  refine ⟨?_, sorted_sortByReceivedDesc _, perm_sortByReceivedDesc _⟩
  intro e he
  have he' := (perm_sortByReceivedDesc _).mem_iff.mp he
  obtain ⟨m, hm, rfl⟩ := List.mem_map.mp he'
  obtain ⟨hm', hk⟩ := List.mem_filter.mp hm
  unfold keepMessage at hk
  dsimp only at hk
  split_ifs at hk with hd
  unfold convertMessage
  dsimp only
  omega

/-- Witness for C6 at a concrete fetched list. -/

theorem claim_C6_result_postconditions_witness :
    (1700000000000 - dayMs ≤
      (convertMessage 1700000000000 (demoFetched "a@x.com" 1700000000000)).receivedAt) ∧
    (fetchRecentMessages 1700000000000 "a@x.com"
        [demoFetched "a@x.com" 1700000000000]).Sorted
      (fun a b => b.receivedAt ≤ a.receivedAt) :=
  ⟨(claim_C6_result_postconditions 1700000000000 "a@x.com"
      [demoFetched "a@x.com" 1700000000000]).1 _ (by decide),
   (claim_C6_result_postconditions 1700000000000 "a@x.com"
      [demoFetched "a@x.com" 1700000000000]).2.1⟩

/-- C9 counterexample: fetching uid 99 from an empty mailbox fails, but the
failure is classified `UNKNOWN_ERROR`, not the `ApiError` the claim requires
— `handleError` maps only `Mailbox does not exist` to `API_ERROR`, and the
not-found message `邮件不存在: 99` matches no trigger. -/

theorem claim_C9_counterexample :
    getEmailContentErr 0 [] "99" =
      some { errType := .unknownError, message := "邮件不存在: 99",
             retryable := false, operation := "getEmailContent" } ∧
    ChannelErrorType.unknownError ≠ ChannelErrorType.apiError := by
  exact ⟨by decide, by decide⟩

/-- C9 amended: an id that fails numeric parsing, or that names no existing
uid, yields a failure classified `UnknownError` (not retryable) carrying the
not-found message `邮件不存在: ${id}` — not ApiError, NetworkError or
AuthenticationError — provided the message does not accidentally contain one
of the classifier's trigger substrings. -/

theorem claim_C9_notfound_classification :
    ∀ (now : Nat) (mailbox : List FetchedMsg) (emailId : String),
      (parseIntModel emailId = none ∨
        fetchOneModel mailbox (parseIntModel emailId) = none) →
      noTrigger ("邮件不存在: " ++ emailId) = true →
      getEmailContentErr now mailbox emailId =
        some { errType := .unknownError, message := "邮件不存在: " ++ emailId,
               retryable := false, operation := "getEmailContent" } := by
  intro now mailbox emailId h ht
  have hnone : fetchOneModel mailbox (parseIntModel emailId) = none := by
    rcases h with h | h
    · simp [fetchOneModel, h]
    · exact h
  unfold getEmailContentErr fetchMessageContentModel
  rw [hnone]
  unfold noTrigger at ht
  simp only [Bool.and_eq_true, Bool.not_eq_true'] at ht
  obtain ⟨⟨⟨⟨h1, h2⟩, h3⟩, h4⟩, h5⟩ := ht
  unfold handleError
  dsimp only
  rw [h1, h2, h3, h4, h5]
  rfl

/-- Witness for the amended C9: a non-numeric id on an empty mailbox. -/

theorem claim_C9_notfound_classification_witness :
    getEmailContentErr 0 [] "abc" =
      some { errType := .unknownError, message := "邮件不存在: abc",
             retryable := false, operation := "getEmailContent" } :=
  claim_C9_notfound_classification 0 [] "abc" (Or.inl (by decide)) (by decide)

/-! ### C10: totality of `parseEmailContact` over missing envelope data -/


theorem parseEmailContact_email_ne_empty (a : Option Address) :
    (parseEmailContact a).email ≠ "" := by
  cases a with
  | none => decide
  | some a =>
      cases ha : a.address with
      | none => simp [parseEmailContact, jsStrOr, ha]
      | some s =>
          simp only [parseEmailContact, jsStrOr, ha]
          split_ifs with h
          · decide
          · exact h

/-- C10: `parseEmailContact` is total over missing envelope data — a missing
`from` entry or a missing/empty address yields the placeholder
`unknown@unknown.com` — and consequently every message produced by the list
path (`fetchRecentMessages`) and by the content path
(`fetchMessageContentModel`) has a non-empty `from.email`. -/

theorem claim_C10_contact_totality :
    (parseEmailContact none = { email := "unknown@unknown.com", name := none }) ∧
    (∀ nm : Option String,
        parseEmailContact (some { address := none, name := nm })
          = { email := "unknown@unknown.com", name := nm }) ∧
    (∀ nm : Option String,
        parseEmailContact (some { address := some "", name := nm })
          = { email := "unknown@unknown.com", name := nm }) ∧
    (∀ a : Option Address, (parseEmailContact a).email ≠ "") ∧
    (∀ (now : Nat) (addr : String) (msgs : List FetchedMsg),
        ∀ e ∈ fetchRecentMessages now addr msgs, e.«from».email ≠ "") ∧
    (∀ (now : Nat) (mailbox : List FetchedMsg) (emailId : String) (e : EmailMessage),
        fetchMessageContentModel now mailbox emailId = .ok e →
        e.«from».email ≠ "") := by
  refine ⟨rfl, fun nm => rfl, fun nm => rfl, parseEmailContact_email_ne_empty, ?_, ?_⟩
  · intro now addr msgs e he
    have he' := (perm_sortByReceivedDesc _).mem_iff.mp he
    obtain ⟨m, _, rfl⟩ := List.mem_map.mp he'
    exact parseEmailContact_email_ne_empty _
  · intro now mailbox emailId e he
    unfold fetchMessageContentModel at he
    cases hf : fetchOneModel mailbox (parseIntModel emailId) with
    | none => rw [hf] at he; cases he
    | some m =>
        rw [hf] at he
        cases he
        exact parseEmailContact_email_ne_empty _

/-- Witness for C10 on a concrete fetched message with no `from` entry. -/

theorem claim_C10_contact_totality_witness :
    (convertMessage 1700000000000
      { uid := 7
        envelope :=
          { «from» := none, «to» := some [{ address := some "a@x.com", name := none }]
            cc := none, bcc := none, subject := none, messageId := none }
        internalDate := some 1700000000000
        flagSeen := false
        size := none }).«from».email ≠ "" := by
  refine (claim_C10_contact_totality.2.2.2.2.1 1700000000000 "a@x.com"
    [{ uid := 7
       envelope :=
         { «from» := none, «to» := some [{ address := some "a@x.com", name := none }]
           cc := none, bcc := none, subject := none, messageId := none }
       internalDate := some 1700000000000
       flagSeen := false
       size := none }]) _ (by decide)

theorem jsStrOr_default_ne_empty (o : Option String) : jsStrOr o "1" ≠ "" := by
  unfold jsStrOr
  cases o with
  | none => decide
  | some s =>
      dsimp only
      split_ifs with h
      · decide
      · exact h

mutual

theorem findBodyPart_eq_firstMatch (s : BodyStructure) (m : String) :
    findBodyPart s m
      = (matchingNodes s m).head?.map (fun n => jsStrOr (partOf n) "1") := by
  match s with
  | .node t st p d f n sz i c =>
      rw [findBodyPart.eq_def, matchingNodes.eq_def]
      dsimp only
      by_cases hm :
          fullTypeOf (.node t st p d f n sz i c) = lowerAscii m
      · rw [if_pos hm, if_pos hm]
        simp [partOf]
      · rw [if_neg hm, if_neg hm]
        simp only [List.nil_append]
        by_cases hmp :
            strStartsWith (fullTypeOf (.node t st p d f n sz i c)) "multipart/"
        · rw [if_pos hmp, if_pos hmp]
          cases c with
          | some children => exact findBodyPartList_eq_firstMatch children m
          | none => simp
        · rw [if_neg hmp, if_neg hmp]
          simp

theorem findBodyPartList_eq_firstMatch (cs : List BodyStructure) (m : String) :
    findBodyPartList cs m
      = (matchingNodesList cs m).head?.map (fun n => jsStrOr (partOf n) "1") := by
  match cs with
  | [] => rw [findBodyPartList.eq_def, matchingNodesList.eq_def]; rfl
  | c :: rest =>
      rw [findBodyPartList.eq_def, matchingNodesList.eq_def]
      dsimp only
      have hc := findBodyPart_eq_firstMatch c m
      have hrest := findBodyPartList_eq_firstMatch rest m
      cases hmn : matchingNodes c m with
      | nil =>
          rw [hmn] at hc
          simp only [List.head?_nil, Option.map_none'] at hc
          rw [hc]
          simpa using hrest
      | cons nd tail =>
          rw [hmn] at hc
          simp only [List.head?_cons, Option.map_some'] at hc
          rw [hc]
          have hne := jsStrOr_default_ne_empty (partOf nd)
          simp [if_neg hne]

end

/-- C7: `findBodyPart` is the first-match depth-first search: it returns the
path of the first node — in preorder, descending only below `multipart/*`
nodes — whose normalized type (`type` if it contains `/`, else
`type/subtype`) equals the lower-cased target, substituting the default path
`'1'` for a missing/empty part, and `none` when no node matches; a node whose
type matches returns its own path immediately, and a non-matching
non-`multipart` node yields nothing regardless of children. -/

theorem claim_C7_findBodyPart_dfs :
    (∀ (s : BodyStructure) (mimeType : String),
        findBodyPart s mimeType
          = (matchingNodes s mimeType).head?.map (fun n => jsStrOr (partOf n) "1")) ∧
    (∀ (s : BodyStructure) (mimeType : String),
        fullTypeOf s = lowerAscii mimeType →
        findBodyPart s mimeType = some (jsStrOr (partOf s) "1")) ∧
    (∀ (s : BodyStructure) (mimeType : String),
        fullTypeOf s ≠ lowerAscii mimeType →
        strStartsWith (fullTypeOf s) "multipart/" = false →
        findBodyPart s mimeType = none) := by
  refine ⟨findBodyPart_eq_firstMatch, ?_, ?_⟩
  · intro s mimeType hm
    cases s with
    | node t st p d f n sz i c =>
        rw [findBodyPart.eq_def]
        dsimp only
        rw [if_pos hm]
        simp [partOf]
  · intro s mimeType hm hmp
    cases s with
    | node t st p d f n sz i c =>
        rw [findBodyPart.eq_def]
        dsimp only
        rw [if_neg hm, if_neg (by simp [hmp])]

/-- Witness for C7 on the three-part demo tree. -/

theorem claim_C7_findBodyPart_dfs_witness :
    (findBodyPart demoTree "text/html"
      = (matchingNodes demoTree "text/html").head?.map
          (fun n => jsStrOr (partOf n) "1")) ∧
    findBodyPart (demoLeaf "text" "plain" "1") "text/plain"
      = some (jsStrOr (partOf (demoLeaf "text" "plain" "1")) "1") ∧
    findBodyPart (demoLeaf "text" "plain" "1") "text/html" = none :=
  ⟨claim_C7_findBodyPart_dfs.1 demoTree "text/html",
   claim_C7_findBodyPart_dfs.2.1 (demoLeaf "text" "plain" "1") "text/plain" (by decide),
   claim_C7_findBodyPart_dfs.2.2 (demoLeaf "text" "plain" "1") "text/html"
     (by decide) (by decide)⟩

mutual

theorem findAttachments_eq_entries (s : BodyStructure) (acc : List AttachmentInfo) :
    findAttachments s acc = acc ++ attEntriesFrom s acc.length := by
  match s with
  | .node t st p d f n sz i c =>
      rw [findAttachments.eq_def, attEntriesFrom.eq_def]
      dsimp only
      by_cases hq : (isAttachmentNode (.node t st p d f n sz i c)
          && !isTextContentNode (.node t st p d f n sz i c)) = true
      · rw [if_pos hq, if_pos hq]
        by_cases hmp :
            strStartsWith (fullTypeOf (.node t st p d f n sz i c)) "multipart/" = true
        · rw [if_pos hmp, if_pos hmp]
          cases c with
          | some children =>
              dsimp only
              rw [findAttachmentsList_eq_entries children]
              simp [List.append_assoc]
          | none => dsimp only; simp
        · rw [if_neg hmp, if_neg hmp]
          simp
      · rw [if_neg hq, if_neg hq]
        by_cases hmp :
            strStartsWith (fullTypeOf (.node t st p d f n sz i c)) "multipart/" = true
        · rw [if_pos hmp, if_pos hmp]
          cases c with
          | some children =>
              dsimp only
              rw [findAttachmentsList_eq_entries children]
              simp
          | none => dsimp only; simp
        · rw [if_neg hmp, if_neg hmp]
          simp

theorem findAttachmentsList_eq_entries (cs : List BodyStructure)
    (acc : List AttachmentInfo) :
    findAttachmentsList cs acc = acc ++ attEntriesListFrom cs acc.length := by
  match cs with
  | [] => rw [findAttachmentsList.eq_def, attEntriesListFrom.eq_def]; simp
  | c :: rest =>
      rw [findAttachmentsList.eq_def, attEntriesListFrom.eq_def]
      dsimp only
      rw [findAttachments_eq_entries c acc,
        findAttachmentsList_eq_entries rest (acc ++ attEntriesFrom c acc.length)]
      simp [List.append_assoc]

end

/-- C8: `findAttachments` appends to the given accumulator exactly the
entries described by `attEntriesFrom`: one entry per node whose disposition
is `attachment`/`inline` or which carries a filename parameter AND whose
normalized type is not exactly `text/plain`/`text/html`, with
{id = part path (or running index), filename (generated if absent),
contentType, size, inline flag, contentId}, recursing into `multipart/*`
children regardless of the node's own match; on the demo tree the two text
bodies are excluded and the one attachment leaf is returned with its declared
filename and type. -/

theorem claim_C8_findAttachments_classification :
    (∀ (s : BodyStructure) (acc : List AttachmentInfo),
        findAttachments s acc = acc ++ attEntriesFrom s acc.length) ∧
    (∀ (cs : List BodyStructure) (acc : List AttachmentInfo),
        findAttachmentsList cs acc = acc ++ attEntriesListFrom cs acc.length) ∧
    (∀ s : BodyStructure, findAttachments s [] = attEntriesFrom s 0) ∧
    findAttachments demoTree [] =
      [{ id := "3", filename := "a.pdf", contentType := "application/pdf",
         size := 2048, inline := false, contentId := some "cid3" }] :=
  ⟨findAttachments_eq_entries, findAttachmentsList_eq_entries,
   fun s => by simpa using findAttachments_eq_entries s [],
   by decide⟩
